/-
Verification of the image-source module of DataSculptor
(src/datasculptor/image_source.py).

The filesystem is modelled as a partial map from paths to file contents;
paths and names are lists of characters.  Python string operations used by
the source (`str.split` on a single-character separator, `str.join`,
`str(i)` for a nonnegative integer, `os.path.basename`, `os.path.splitext`)
are embedded as structurally recursive functions on character lists.
`save` and `read` are embedded as state transformers on the filesystem that
also emit a trace of effects (original-image reads, cropper invocations,
file writes, moves), so that temporal claims about what a call does or does
not do can be stated over the trace.
-/
import Mathlib

namespace DataSculptor

/-- Strings are modelled as lists of characters. -/
abbrev Str := List Char

/-- Model of POSIX `os.path.join d f` for a relative second component. -/
def joinPath (d f : Str) : Str := d ++ '/' :: f

/-- Model of Python `s.split(sep)` for a single-character separator:
always returns at least one (possibly empty) part. -/
def splitChar (sep : Char) : Str → List Str
  | [] => [[]]
  | c :: cs =>
    match splitChar sep cs with
    | [] => [[]]
    | w :: ws => if c = sep then [] :: w :: ws else (c :: w) :: ws

/-- Model of Python `sep.join(parts)` for a single-character separator. -/
def joinChar (sep : Char) : List Str → Str
  | [] => []
  | [w] => w
  | w :: w' :: ws => w ++ sep :: joinChar sep (w' :: ws)

/-- Model of the expression `'_'.join(name.split('_')[:-1])` used by
`CropImageSource.save` to derive the cache base name. -/
def dropLastSegment (name : Str) : Str :=
  joinChar '_' ((splitChar '_' name).dropLast)

/-- Fuel-based loop behind `natStr`: emits the decimal digits of `n`
(most significant first) in front of `acc`. -/
def natStrAux : Nat → Nat → Str → Str
  | 0, _, acc => acc
  | fuel + 1, n, acc =>
    if n < 10 then Char.ofNat (48 + n % 10) :: acc
    else natStrAux fuel (n / 10) (Char.ofNat (48 + n % 10) :: acc)

/-- Model of Python `str(i)` for a nonnegative integer: decimal digits,
no sign, no leading zeros. -/
def natStr (n : Nat) : Str := natStrAux (n + 1) n []

/-- Model of `os.path.split p` second component: the part of the path after
the last separator. -/
def basename (p : Str) : Str := (p.reverse.takeWhile (fun c => c ≠ '/')).reverse

/-- Model of `os.path.splitext` applied to a bare filename: splits before the
last dot, except that a name whose characters before that dot are all dots
has no extension. -/
def splitExt (b : Str) : Str × Str :=
  if ('.' ∈ b) then
    let rext := b.reverse.takeWhile (fun c => c ≠ '.')
    let root := ((b.reverse.dropWhile (fun c => c ≠ '.')).tail).reverse
    if root.any (fun c => c ≠ '.') then (root, '.' :: rext.reverse) else (b, [])
  else (b, [])

/-- Errors surfaced by the embedded operations, named after the Python
exceptions they model. -/
inductive Err where
  /-- `TypeError` raised by `os.path.join(None, ...)` in the branch of
  `CropImageSource.save` taken when `cache_dir` is `None`. -/
  | typeError
  /-- `IndexError` raised by `crops[self.idx]` when `idx` is out of range. -/
  | indexError
  /-- `FileNotFoundError` raised by `np.fromfile` or `os.rename` on a
  missing path. -/
  | fileNotFound (p : Str)
  /-- Failure of `cv2.imencode` to produce a buffer; the following
  `im_buf_arr.tofile` call then raises. -/
  | encodeError
deriving DecidableEq

/-- Effects emitted by the embedded operations. -/
inductive Ev (α : Type) where
  /-- The original image source was read. -/
  | readOrig
  /-- The `cropper_fn` was invoked. -/
  | cropCall
  /-- A file was written. -/
  | write (p : Str) (v : α)
  /-- A file was moved by `os.rename`. -/
  | move (src dst : Str)
  /-- `os.makedirs(d, exist_ok=True)` was called. -/
  | mkdirs (d : Str)

/-- The filesystem: a partial map from paths to file contents. -/
def FS (α : Type) := Str → Option α

variable {α β : Type}

/-- Writing a file: the path now holds `v`, everything else is unchanged. -/
def FS.write (fs : FS α) (p : Str) (v : α) : FS α :=
  fun q => if q = p then some v else fs q

/-- Model of `os.rename src dst`: fails if `src` is absent, otherwise the
content moves from `src` to `dst`. -/
def FS.rename (fs : FS α) (src dst : Str) : Except Err (FS α) :=
  match fs src with
  | none => .error (.fileNotFound src)
  | some v => .ok (fun q => if q = dst then some v else if q = src then none else fs q)

/-- Result of an embedded `save` call: the error it raised (if any), the
filesystem when it finished or raised, and the trace of effects it
performed. -/
structure SaveOut (α : Type) where
  err : Option Err
  fs : FS α
  evs : List (Ev α)

/-- An `ImageSource` as seen by a `CropImageSource` holding it: its `name`
and the pixel buffer its `read()` produces. -/
structure ImageSource (α : Type) where
  name : Str
  read : α

/-- Embedding of `CropImageSource.__init__`: the four stored fields. -/
structure CropImageSource (α : Type) where
  original_image_source : ImageSource α
  idx : Nat
  cropper_fn : α → List α
  name : Str

/-- Embedding of `CropImageSource.read`: delegates to the original image
source and returns the full, uncropped image. -/
def CropImageSource.read (s : CropImageSource α) : α :=
  s.original_image_source.read

/-- The cache filename written for crop `i` by `CropImageSource.save`:
`os.path.join(cache_dir, '_'.join(name.split('_')[:-1]) + '_' + str(i) +
image_ext)` with `base` standing for the already-computed
`'_'.join(name.split('_')[:-1])`. -/
def cropPath (cacheDir base ext : Str) (i : Nat) : Str :=
  joinPath cacheDir (base ++ '_' :: natStr i ++ ext)

/-- Embedding of the loop `for i, crop in enumerate(crops): cv2.imwrite(...)`
in `CropImageSource.save`, starting at index `i`.  Encoding by the image
codec is abstracted away: the cache file holds the crop itself (the spec's
codec round-trips losslessly). -/
def writeCropsAux (cacheDir base ext : Str) : FS α → Nat → List α → FS α × List (Ev α)
  | fs, _, [] => (fs, [])
  | fs, i, crop :: crops =>
    let p := cropPath cacheDir base ext i
    let out := writeCropsAux cacheDir base ext (fs.write p crop) (i + 1) crops
    (out.1, .write p crop :: out.2)

/-- Embedding of `CropImageSource.save`.  With `cache_dir = None` the code
reads the original, crops, indexes `crops[self.idx]` (possibly raising
`IndexError`) and then raises `TypeError` at `os.path.join(None, ...)`
before writing anything.  With a cache directory it ensures the directory
exists, populates the cache with every crop when the cache key file is
absent, and finally renames the cache key file into `save_dir`. -/
def CropImageSource.save (s : CropImageSource α) (fs : FS α)
    (save_dir : Str) (image_ext : Str) (cache_dir : Option Str) : SaveOut α :=
  match cache_dir with
  | none =>
    let crops := s.cropper_fn s.read
    if s.idx < crops.length then ⟨some .typeError, fs, [.readOrig, .cropCall]⟩
    else ⟨some .indexError, fs, [.readOrig, .cropCall]⟩
  | some cdir =>
    let cached := joinPath cdir (s.name ++ image_ext)
    let target := joinPath save_dir (s.name ++ image_ext)
    let populated : FS α × List (Ev α) :=
      if (fs cached).isSome then (fs, [])
      else
        let crops := s.cropper_fn s.read
        let out := writeCropsAux cdir (dropLastSegment s.name) image_ext fs 0 crops
        (out.1, .readOrig :: .cropCall :: out.2)
    match (populated.1).rename cached target with
    | .error e => ⟨some e, populated.1, .mkdirs cdir :: populated.2⟩
    | .ok fs' => ⟨none, fs', .mkdirs cdir :: populated.2 ++ [.move cached target]⟩

/-- Embedding of `PathImageSource.__init__`: `preprocessing_fns or []`
collapses `None` to the empty list, and `name or <derived>` follows Python
truthiness, so both `None` and an empty string fall back to the filename
without directory and extension. -/
structure PathImageSource (α : Type) where
  path : Str
  preprocessing_fns : List (α → α)
  name : Str

/-- The constructor logic of `PathImageSource.__init__`. -/
def PathImageSource.init (path : Str) (preprocessing_fns : Option (List (α → α)))
    (name : Option Str) : PathImageSource α :=
  { path := path
    preprocessing_fns := preprocessing_fns.getD []
    name :=
      match name with
      | some n => if n.isEmpty then (splitExt (basename path)).1 else n
      | none => (splitExt (basename path)).1 }

/-- Embedding of `PathImageSource.read`: `np.fromfile` loads the bytes at
`path` (raising if the file is missing), `cv2.imdecode` (the abstract
`imdecode`) turns them into a pixel buffer, and the preprocessing functions
are applied left to right. -/
def PathImageSource.read (imdecode : β → α) (s : PathImageSource α) (fs : FS β) :
    Except Err α :=
  match fs s.path with
  | none => .error (.fileNotFound s.path)
  | some bytes => .ok (s.preprocessing_fns.foldl (fun img fn => fn img) (imdecode bytes))

/-- Embedding of `PathImageSource._write`: `cv2.imencode` (the abstract
`imencode`) encodes for the extension extracted from the path; when it
produces no buffer the following `tofile` call on it raises, otherwise the
buffer is written to `path`. -/
def PathImageSource._write (imencode : Str → α → Option β) (fs : FS β)
    (p : Str) (img : α) : SaveOut β :=
  let ext := (splitExt (basename p)).2
  match imencode ext img with
  | none => ⟨some .encodeError, fs, []⟩
  | some buf => ⟨none, fs.write p buf, [.write p buf]⟩

/-- Embedding of `PathImageSource.save`: read, then write the encoded image
to `<save_dir>/<name><image_ext>`; `cache_dir` is ignored. -/
def PathImageSource.save (imdecode : β → α) (imencode : Str → α → Option β)
    (s : PathImageSource α) (fs : FS β) (save_dir : Str) (image_ext : Str)
    (cache_dir : Option Str) : SaveOut β :=
  match s.read imdecode fs with
  | .error e => ⟨some e, fs, []⟩
  | .ok img => PathImageSource._write imencode fs (joinPath save_dir (s.name ++ image_ext)) img

/-- Embedding of `paths2image_sources`: one `PathImageSource` per path, in
order, sharing the same preprocessing functions; no name override is
passed. -/
def paths2image_sources (paths : List Str) (preprocess_fns : Option (List (α → α))) :
    List (PathImageSource α) :=
  paths.map (fun path => PathImageSource.init path preprocess_fns none)

/-! ### Lemmas about the embedded Python string operations -/

theorem splitChar_ne_nil (sep : Char) (s : Str) : splitChar sep s ≠ [] := by
  cases s with
  | nil => simp [splitChar]
  | cons c cs =>
    simp only [splitChar]
    cases h : splitChar sep cs with
    | nil => simp
    | cons w ws => by_cases hc : c = sep <;> simp [hc]

theorem splitChar_no_sep (sep : Char) (t : Str) (ht : sep ∉ t) :
    splitChar sep t = [t] := by
  induction t with
  | nil => rfl
  | cons c cs ih =>
    have hc : c ≠ sep := by
      intro h
      exact ht (by rw [h]; exact List.mem_cons_self _ _)
    have hcs : sep ∉ cs := by
      intro h
      exact ht (List.mem_cons_of_mem c h)
    simp [splitChar, ih hcs, hc]

theorem splitChar_append_sep (sep : Char) (xs t : Str) (ht : sep ∉ t) :
    splitChar sep (xs ++ sep :: t) = splitChar sep xs ++ [t] := by
  induction xs with
  | nil =>
    simp [splitChar, splitChar_no_sep sep t ht]
  | cons c cs ih =>
    cases h : splitChar sep cs with
    | nil => exact absurd h (splitChar_ne_nil sep cs)
    | cons w ws =>
      by_cases hc : c = sep <;>
        simp [splitChar, ih, h, hc, List.cons_append]

theorem joinChar_splitChar (sep : Char) (s : Str) :
    joinChar sep (splitChar sep s) = s := by
  induction s with
  | nil => rfl
  | cons c cs ih =>
    simp only [splitChar]
    cases h : splitChar sep cs with
    | nil => exact absurd h (splitChar_ne_nil sep cs)
    | cons w ws =>
      rw [h] at ih
      by_cases hc : c = sep
      · subst hc
        simp only [if_pos rfl, joinChar, ih]
        cases ws <;> simp_all [joinChar]
      · simp only [if_neg hc]
        cases ws with
        | nil => simp_all [joinChar]
        | cons z zs => simp_all [joinChar]

theorem dropLastSegment_concat (b t : Str) (ht : '_' ∉ t) :
    dropLastSegment (b ++ '_' :: t) = b := by
  unfold dropLastSegment
  rw [splitChar_append_sep '_' b t ht, List.dropLast_concat, joinChar_splitChar]

/-! ### Lemmas about the decimal representation `natStr` -/

theorem natStrAux_acc (fuel : Nat) : ∀ n acc,
    natStrAux fuel n acc = natStrAux fuel n [] ++ acc := by
  induction fuel with
  | zero => intro n acc; rfl
  | succ fuel ih =>
    intro n acc
    by_cases h : n < 10
    · simp [natStrAux, h]
    · simp only [natStrAux, if_neg h]
      rw [ih (n / 10) (Char.ofNat (48 + n % 10) :: acc),
        ih (n / 10) [Char.ofNat (48 + n % 10)]]
      simp

theorem natStrAux_fuel : ∀ f1 f2 n, 0 < f1 → 0 < f2 → n < 10 ^ f1 → n < 10 ^ f2 →
    natStrAux f1 n [] = natStrAux f2 n [] := by
  intro f1
  induction f1 with
  | zero => intro f2 n h; omega
  | succ f1 ih =>
    intro f2 n _ hf2 hn1 hn2
    match f2, hf2 with
    | f2 + 1, _ =>
      by_cases h : n < 10
      · simp [natStrAux, h]
      · simp only [natStrAux, if_neg h]
        have h10 : 10 ≤ n := Nat.le_of_not_lt h
        have hf1' : 0 < f1 := by
          rcases Nat.eq_zero_or_pos f1 with h0 | h0
          · subst h0; simp at hn1; omega
          · exact h0
        have hf2' : 0 < f2 := by
          rcases Nat.eq_zero_or_pos f2 with h0 | h0
          · subst h0; simp at hn2; omega
          · exact h0
        have hd1 : n / 10 < 10 ^ f1 := by
          apply Nat.div_lt_of_lt_mul
          calc n < 10 ^ (f1 + 1) := hn1
            _ = 10 * 10 ^ f1 := by rw [pow_succ, Nat.mul_comm]
        have hd2 : n / 10 < 10 ^ f2 := by
          apply Nat.div_lt_of_lt_mul
          calc n < 10 ^ (f2 + 1) := hn2
            _ = 10 * 10 ^ f2 := by rw [pow_succ, Nat.mul_comm]
        rw [natStrAux_acc f1, natStrAux_acc f2, ih f2 (n / 10) hf1' hf2' hd1 hd2]

theorem natStr_lt_ten {n : Nat} (h : n < 10) :
    natStr n = [Char.ofNat (48 + n % 10)] := by
  simp [natStr, natStrAux, h]

theorem natStr_ge_ten {n : Nat} (h : 10 ≤ n) :
    natStr n = natStr (n / 10) ++ [Char.ofNat (48 + n % 10)] := by
  have hlt : ¬ n < 10 := Nat.not_lt.mpr h
  have hn : 0 < n := by omega
  have hself : n < 10 ^ n := Nat.lt_pow_self (by norm_num) n
  have hd : n / 10 < 10 ^ n := lt_of_le_of_lt (Nat.div_le_self n 10) hself
  have hd' : n / 10 < 10 ^ (n / 10 + 1) :=
    lt_of_lt_of_le (Nat.lt_pow_self (by norm_num) (n / 10))
      (Nat.pow_le_pow_right (by norm_num) (Nat.le_succ _))
  calc natStr n = natStrAux n (n / 10) [Char.ofNat (48 + n % 10)] := by
        simp [natStr, natStrAux, hlt]
    _ = natStrAux n (n / 10) [] ++ [Char.ofNat (48 + n % 10)] := natStrAux_acc n _ _
    _ = natStr (n / 10) ++ [Char.ofNat (48 + n % 10)] := by
        rw [natStr, natStrAux_fuel n (n / 10 + 1) (n / 10) hn (Nat.succ_pos _) hd hd']

theorem digitChar_toNat (d : Nat) (h : d < 10) :
    (Char.ofNat (48 + d)).toNat = 48 + d := by
  interval_cases d <;> decide

/-- Reads a decimal string back into the number it denotes. -/
def strVal (s : Str) : Nat := s.foldl (fun a c => a * 10 + (c.toNat - 48)) 0

theorem strVal_natStr : ∀ n, strVal (natStr n) = n := by
  intro n
  induction n using Nat.strong_induction_on with
  | _ n ih =>
    by_cases h : n < 10
    · rw [natStr_lt_ten h]
      simp only [strVal, List.foldl]
      rw [digitChar_toNat _ (Nat.mod_lt _ (by norm_num))]
      omega
    · rw [natStr_ge_ten (by omega)]
      have hrec := ih (n / 10) (Nat.div_lt_self (by omega) (by norm_num))
      simp only [strVal, List.foldl_append, List.foldl] at hrec ⊢
      rw [hrec, digitChar_toNat _ (Nat.mod_lt _ (by norm_num))]
      omega

theorem natStr_injective : Function.Injective natStr := by
  intro m n h
  have hm := strVal_natStr m
  rw [h, strVal_natStr] at hm
  exact hm.symm

theorem mem_natStrAux (fuel : Nat) : ∀ (n : Nat) (acc : Str) (c : Char),
    c ∈ natStrAux fuel n acc → c ∈ acc ∨ ∃ d, d < 10 ∧ c = Char.ofNat (48 + d) := by
  induction fuel with
  | zero => intro n acc c hc; exact .inl hc
  | succ fuel ih =>
    intro n acc c hc
    by_cases h : n < 10
    · simp only [natStrAux, if_pos h, List.mem_cons] at hc
      rcases hc with h1 | h1
      · exact .inr ⟨n % 10, Nat.mod_lt _ (by norm_num), h1⟩
      · exact .inl h1
    · simp only [natStrAux, if_neg h] at hc
      rcases ih _ _ _ hc with h1 | h1
      · rcases List.mem_cons.mp h1 with h2 | h2
        · exact .inr ⟨n % 10, Nat.mod_lt _ (by norm_num), h2⟩
        · exact .inl h2
      · exact .inr h1

theorem underscore_not_mem_natStr (n : Nat) : '_' ∉ natStr n := by
  intro h
  rcases mem_natStrAux _ _ _ _ h with h1 | ⟨d, hd, he⟩
  · simp at h1
  · have h2 := digitChar_toNat d hd
    rw [← he] at h2
    have h3 : ('_').toNat = 95 := by decide
    omega

theorem slash_not_mem_natStr (n : Nat) : '/' ∉ natStr n := by
  intro h
  rcases mem_natStrAux _ _ _ _ h with h1 | ⟨d, hd, he⟩
  · simp at h1
  · have h2 := digitChar_toNat d hd
    rw [← he] at h2
    have h3 : ('/').toNat = 47 := by decide
    omega

/-! ### Lemmas about paths and the filesystem -/

theorem takeWhile_all_append {p : Char → Bool} (xs : Str) (y : Char) (ys : Str)
    (hx : ∀ a ∈ xs, p a = true) (hy : p y = false) :
    (xs ++ y :: ys).takeWhile p = xs ∧ (xs ++ y :: ys).dropWhile p = y :: ys := by
  induction xs with
  | nil => simp [List.takeWhile_cons, List.dropWhile_cons, hy]
  | cons a as ih =>
    have ha : p a = true := hx a (List.mem_cons_self _ _)
    have has : ∀ b ∈ as, p b = true := fun b hb => hx b (List.mem_cons_of_mem a hb)
    rcases ih has with ⟨h1, h2⟩
    simp [List.takeWhile_cons, List.dropWhile_cons, ha, h1, h2]

theorem joinPath_eq_iff {d e f g : Str} (hf : '/' ∉ f) (hg : '/' ∉ g) :
    joinPath d f = joinPath e g ↔ d = e ∧ f = g := by
  constructor
  · intro h
    have h' : f.reverse ++ '/' :: d.reverse = g.reverse ++ '/' :: e.reverse := by
      have h2 := congrArg List.reverse h
      simpa [joinPath, List.reverse_append] using h2
    have hf' : ∀ a ∈ f.reverse, (a != '/') = true := by
      intro a ha
      simp only [bne_iff_ne, ne_eq]
      intro hEq
      exact hf (hEq ▸ List.mem_reverse.mp ha)
    have hg' : ∀ a ∈ g.reverse, (a != '/') = true := by
      intro a ha
      simp only [bne_iff_ne, ne_eq]
      intro hEq
      exact hg (hEq ▸ List.mem_reverse.mp ha)
    have hslash : (('/' : Char) != '/') = false := by decide
    have t1 := (takeWhile_all_append f.reverse '/' d.reverse hf' hslash).1
    have t2 := (takeWhile_all_append g.reverse '/' e.reverse hg' hslash).1
    have hfg : f.reverse = g.reverse := by rw [← t1, ← t2, h']
    have hfg' : f = g := by
      have h3 := congrArg List.reverse hfg
      simpa using h3
    refine ⟨?_, hfg'⟩
    rw [hfg] at h'
    have h4 := List.append_cancel_left h'
    have h5 : d.reverse = e.reverse := by
      injection h4
    have h6 := congrArg List.reverse h5
    simpa using h6
  · rintro ⟨rfl, rfl⟩
    rfl

theorem joinPath_right_inj {d f g : Str} : joinPath d f = joinPath d g ↔ f = g := by
  constructor
  · intro h
    have h1 := List.append_cancel_left (h : d ++ '/' :: f = d ++ '/' :: g)
    injection h1
  · intro h; rw [h]

theorem FS.write_self (fs : FS α) (p : Str) (v : α) : fs.write p v p = some v := by
  simp [FS.write]

theorem FS.write_ne (fs : FS α) (p q : Str) (v : α) (h : q ≠ p) :
    fs.write p v q = fs q := by
  simp [FS.write, h]

theorem cropPath_inj {cacheDir base ext : Str} {i j : Nat}
    (h : cropPath cacheDir base ext i = cropPath cacheDir base ext j) : i = j := by
  have h1 := List.append_cancel_left (h : _ ++ '/' :: _ = _ ++ '/' :: _)
  have h2 : (base ++ '_' :: natStr i) ++ ext = (base ++ '_' :: natStr j) ++ ext := by
    injection h1
  have h3 := List.append_cancel_left (List.append_cancel_right h2)
  have h4 : natStr i = natStr j := by
    injection h3
  exact natStr_injective h4

/-! ### Lemmas about the cache-population loop `writeCropsAux` -/

theorem writeCropsAux_fst_frame (cd b ex : Str) :
    ∀ (cs : List α) (fs : FS α) (k : Nat) (p : Str),
      (∀ j, j < cs.length → p ≠ cropPath cd b ex (k + j)) →
      (writeCropsAux cd b ex fs k cs).1 p = fs p := by
  intro cs
  induction cs with
  | nil => intro fs k p _; rfl
  | cons c cs ih =>
    intro fs k p hp
    have h0 : p ≠ cropPath cd b ex k := by
      have := hp 0 (Nat.succ_pos _)
      simpa using this
    have hrest : ∀ j, j < cs.length → p ≠ cropPath cd b ex (k + 1 + j) := by
      intro j hj
      have := hp (j + 1) (by simpa using Nat.succ_lt_succ hj)
      have harith : k + (j + 1) = k + 1 + j := by omega
      rwa [harith] at this
    simp only [writeCropsAux]
    rw [ih _ (k + 1) p hrest, FS.write_ne _ _ _ _ h0]

theorem writeCropsAux_fst_isSome_mono (cd b ex : Str) :
    ∀ (cs : List α) (fs : FS α) (k : Nat) (p : Str),
      (fs p).isSome → ((writeCropsAux cd b ex fs k cs).1 p).isSome := by
  intro cs
  induction cs with
  | nil => intro fs k p h; exact h
  | cons c cs ih =>
    intro fs k p h
    simp only [writeCropsAux]
    apply ih
    by_cases hp : p = cropPath cd b ex k
    · subst hp; rw [FS.write_self]; rfl
    · rwa [FS.write_ne _ _ _ _ hp]

theorem writeCropsAux_fst_present (cd b ex : Str) :
    ∀ (cs : List α) (fs : FS α) (k j : Nat), j < cs.length →
      ((writeCropsAux cd b ex fs k cs).1 (cropPath cd b ex (k + j))).isSome := by
  intro cs
  induction cs with
  | nil => intro fs k j hj; simp at hj
  | cons c cs ih =>
    intro fs k j hj
    cases j with
    | zero =>
      simp only [writeCropsAux, Nat.add_zero]
      apply writeCropsAux_fst_isSome_mono
      rw [FS.write_self]; rfl
    | succ j =>
      have harith : k + (j + 1) = (k + 1) + j := by omega
      rw [harith]
      simp only [writeCropsAux]
      exact ih _ (k + 1) j (by simpa using hj)

theorem writeCropsAux_fst_get (cd b ex : Str) :
    ∀ (cs : List α) (fs : FS α) (k j : Nat) (hj : j < cs.length),
      (writeCropsAux cd b ex fs k cs).1 (cropPath cd b ex (k + j)) =
        some (cs.get ⟨j, hj⟩) := by
  intro cs
  induction cs with
  | nil => intro fs k j hj; simp at hj
  | cons c cs ih =>
    intro fs k j hj
    cases j with
    | zero =>
      simp only [writeCropsAux, Nat.add_zero, List.get]
      rw [writeCropsAux_fst_frame]
      · exact FS.write_self _ _ _
      · intro j' hj' hEq
        have := cropPath_inj hEq
        omega
    | succ j =>
      have harith : k + (j + 1) = (k + 1) + j := by omega
      rw [harith]
      simp only [writeCropsAux, List.get]
      exact ih _ (k + 1) j (by simpa using hj)

theorem writeCropsAux_snd_mem (cd b ex : Str) :
    ∀ (cs : List α) (fs : FS α) (k j : Nat) (hj : j < cs.length),
      Ev.write (cropPath cd b ex (k + j)) (cs.get ⟨j, hj⟩) ∈
        (writeCropsAux cd b ex fs k cs).2 := by
  intro cs
  induction cs with
  | nil => intro fs k j hj; simp at hj
  | cons c cs ih =>
    intro fs k j hj
    cases j with
    | zero =>
      simp only [writeCropsAux, Nat.add_zero, List.get, cropPath]
      exact List.mem_cons_self _ _
    | succ j =>
      have harith : k + (j + 1) = (k + 1) + j := by omega
      rw [harith]
      simp only [writeCropsAux, List.get]
      exact List.mem_cons_of_mem _ (ih _ (k + 1) j (by simpa using hj))

theorem writeCropsAux_snd_writes (cd b ex : Str) :
    ∀ (cs : List α) (fs : FS α) (k : Nat) (e : Ev α),
      e ∈ (writeCropsAux cd b ex fs k cs).2 → ∃ p v, e = Ev.write p v := by
  intro cs
  induction cs with
  | nil => intro fs k e h; simp [writeCropsAux] at h
  | cons c cs ih =>
    intro fs k e h
    simp only [writeCropsAux] at h
    rcases List.mem_cons.mp h with h1 | h1
    · exact ⟨_, _, h1⟩
    · exact ih _ (k + 1) e h1

/-! ### Event predicates and master lemmas about `CropImageSource.save` -/

/-- Tests whether an effect is an invocation of `cropper_fn`. -/
def Ev.isCropCall : Ev α → Bool
  | .cropCall => true
  | _ => false

/-- Tests whether an effect is a read of the original image source. -/
def Ev.isReadOrig : Ev α → Bool
  | .readOrig => true
  | _ => false

/-- Tests whether an effect is a file write. -/
def Ev.isWriteEv : Ev α → Bool
  | .write _ _ => true
  | _ => false

theorem crop_save_warm_eq (s : CropImageSource α) (fs : FS α) (sdir ext cdir : Str)
    (v : α) (hwarm : fs (joinPath cdir (s.name ++ ext)) = some v) :
    s.save fs sdir ext (some cdir) =
      ⟨none,
       fun q => if q = joinPath sdir (s.name ++ ext) then some v
         else if q = joinPath cdir (s.name ++ ext) then none else fs q,
       [.mkdirs cdir,
        .move (joinPath cdir (s.name ++ ext)) (joinPath sdir (s.name ++ ext))]⟩ := by
  simp [CropImageSource.save, hwarm, FS.rename]

theorem crop_save_cold_cases (s : CropImageSource α) (fs : FS α) (sdir ext cdir : Str)
    (hcold : fs (joinPath cdir (s.name ++ ext)) = none) :
    (∃ v, (writeCropsAux cdir (dropLastSegment s.name) ext fs 0 (s.cropper_fn s.read)).1
        (joinPath cdir (s.name ++ ext)) = some v ∧
      s.save fs sdir ext (some cdir) =
        ⟨none,
         fun q => if q = joinPath sdir (s.name ++ ext) then some v
           else if q = joinPath cdir (s.name ++ ext) then none
           else (writeCropsAux cdir (dropLastSegment s.name) ext fs 0
             (s.cropper_fn s.read)).1 q,
         .mkdirs cdir :: .readOrig :: .cropCall ::
           ((writeCropsAux cdir (dropLastSegment s.name) ext fs 0 (s.cropper_fn s.read)).2 ++
             [.move (joinPath cdir (s.name ++ ext)) (joinPath sdir (s.name ++ ext))])⟩) ∨
    ((writeCropsAux cdir (dropLastSegment s.name) ext fs 0 (s.cropper_fn s.read)).1
        (joinPath cdir (s.name ++ ext)) = none ∧
      s.save fs sdir ext (some cdir) =
        ⟨some (.fileNotFound (joinPath cdir (s.name ++ ext))),
         (writeCropsAux cdir (dropLastSegment s.name) ext fs 0 (s.cropper_fn s.read)).1,
         .mkdirs cdir :: .readOrig :: .cropCall ::
           (writeCropsAux cdir (dropLastSegment s.name) ext fs 0 (s.cropper_fn s.read)).2⟩) := by
  cases h2 : (writeCropsAux cdir (dropLastSegment s.name) ext fs 0 (s.cropper_fn s.read)).1
      (joinPath cdir (s.name ++ ext)) with
  | none =>
    right
    refine ⟨rfl, ?_⟩
    simp [CropImageSource.save, hcold, FS.rename, h2]
  | some v =>
    left
    refine ⟨v, rfl, ?_⟩
    simp [CropImageSource.save, hcold, FS.rename, h2]

/-! ### Claim theorems -/

/-- C1: when `save(target_dir, image_ext, cache_dir)` finds that the cache
key file `<cache_dir>/<name><image_ext>` does not exist, it reads the
original image source once, applies `cropper_fn` exactly once to obtain the
full ordered sequence of crops, and writes every crop `j` of that sequence
into `cache_dir` under the filename obtained by dropping the last
underscore-delimited segment of `name` and appending an underscore, `j` and
the extension. -/
theorem crop_save_cold_cache_populates
    (s : CropImageSource α) (fs : FS α) (sdir ext cdir : Str)
    (hcold : fs (joinPath cdir (s.name ++ ext)) = none) :
    ((s.save fs sdir ext (some cdir)).evs.countP (fun e => e.isReadOrig) = 1) ∧
    ((s.save fs sdir ext (some cdir)).evs.countP (fun e => e.isCropCall) = 1) ∧
    (∀ j (hj : j < (s.cropper_fn s.read).length),
      Ev.write (cropPath cdir (dropLastSegment s.name) ext j)
          ((s.cropper_fn s.read).get ⟨j, hj⟩) ∈ (s.save fs sdir ext (some cdir)).evs) := by
  have hwr := writeCropsAux_snd_writes cdir (dropLastSegment s.name) ext
    (s.cropper_fn s.read) fs 0
  have hz1 : ((writeCropsAux cdir (dropLastSegment s.name) ext fs 0
      (s.cropper_fn s.read)).2.countP (fun e => Ev.isReadOrig e)) = 0 := by
    rw [List.countP_eq_zero]
    intro e he
    rcases hwr e he with ⟨p, v, rfl⟩
    simp [Ev.isReadOrig]
  have hz2 : ((writeCropsAux cdir (dropLastSegment s.name) ext fs 0
      (s.cropper_fn s.read)).2.countP (fun e => Ev.isCropCall e)) = 0 := by
    rw [List.countP_eq_zero]
    intro e he
    rcases hwr e he with ⟨p, v, rfl⟩
    simp [Ev.isCropCall]
  have hmem : ∀ j (hj : j < (s.cropper_fn s.read).length),
      Ev.write (cropPath cdir (dropLastSegment s.name) ext j)
          ((s.cropper_fn s.read).get ⟨j, hj⟩) ∈
        (writeCropsAux cdir (dropLastSegment s.name) ext fs 0 (s.cropper_fn s.read)).2 := by
    intro j hj
    have := writeCropsAux_snd_mem cdir (dropLastSegment s.name) ext
      (s.cropper_fn s.read) fs 0 j hj
    simpa using this
  rcases crop_save_cold_cases s fs sdir ext cdir hcold with ⟨v, hv, hEq⟩ | ⟨hv, hEq⟩
  · rw [hEq]
    refine ⟨?_, ?_, ?_⟩
    · rw [List.countP_cons, List.countP_cons, List.countP_cons, List.countP_append, hz1]
      simp [Ev.isReadOrig]
    · rw [List.countP_cons, List.countP_cons, List.countP_cons, List.countP_append, hz2]
      simp [Ev.isCropCall]
    · intro j hj
      exact List.mem_cons_of_mem _ (List.mem_cons_of_mem _ (List.mem_cons_of_mem _
        (List.mem_append_left _ (hmem j hj))))
  · rw [hEq]
    refine ⟨?_, ?_, ?_⟩
    · rw [List.countP_cons, List.countP_cons, List.countP_cons, hz1]
      simp [Ev.isReadOrig]
    · rw [List.countP_cons, List.countP_cons, List.countP_cons, hz2]
      simp [Ev.isCropCall]
    · intro j hj
      exact List.mem_cons_of_mem _ (List.mem_cons_of_mem _ (List.mem_cons_of_mem _
        (hmem j hj)))

/-- Witness: `crop_save_cold_cache_populates` applied to a concrete
two-crop instance over an empty filesystem. -/
theorem crop_save_cold_cache_populates_witness :
    ((fun _ => none : FS Nat) (joinPath "cache".data ("cat_2".data ++ ".jpg".data)) = none) ∧
    (((CropImageSource.save ⟨⟨"cat".data, 100⟩, 2, fun n => [n, n + 1], "cat_2".data⟩
        (fun _ => none) "out".data ".jpg".data (some "cache".data)).evs.countP
          (fun e => e.isReadOrig) = 1) ∧
     ((CropImageSource.save ⟨⟨"cat".data, 100⟩, 2, fun n => [n, n + 1], "cat_2".data⟩
        (fun _ => none) "out".data ".jpg".data (some "cache".data)).evs.countP
          (fun e => e.isCropCall) = 1) ∧
     (∀ j (hj : j < ([100, 101] : List Nat).length),
       Ev.write (cropPath "cache".data (dropLastSegment "cat_2".data) ".jpg".data j)
           (([100, 101] : List Nat).get ⟨j, hj⟩) ∈
         (CropImageSource.save ⟨⟨"cat".data, 100⟩, 2, fun n => [n, n + 1], "cat_2".data⟩
           (fun _ => none) "out".data ".jpg".data (some "cache".data)).evs)) :=
  ⟨rfl, crop_save_cold_cache_populates
    ⟨⟨"cat".data, 100⟩, 2, fun n => [n, n + 1], "cat_2".data⟩
    (fun _ => none) "out".data ".jpg".data "cache".data rfl⟩

/-- C2: when the cache key file `<cache_dir>/<name><image_ext>` already
exists at the start of a `save` call with a cache directory, neither
`cropper_fn` nor the original image source is consulted: the expensive crop
computation is skipped entirely. -/
theorem crop_save_warm_cache_skips
    (s : CropImageSource α) (fs : FS α) (sdir ext cdir : Str)
    (hwarm : (fs (joinPath cdir (s.name ++ ext))).isSome) :
    ((s.save fs sdir ext (some cdir)).evs.countP (fun e => e.isCropCall) = 0) ∧
    ((s.save fs sdir ext (some cdir)).evs.countP (fun e => e.isReadOrig) = 0) := by
  rcases Option.isSome_iff_exists.mp hwarm with ⟨v, hv⟩
  rw [crop_save_warm_eq s fs sdir ext cdir v hv]
  simp [List.countP_cons, Ev.isCropCall, Ev.isReadOrig]

/-- Witness: `crop_save_warm_cache_skips` applied to a concrete instance
over a filesystem on which every path exists. -/
theorem crop_save_warm_cache_skips_witness :
    (((fun _ => some 5 : FS Nat) (joinPath "cache".data ("cat_2".data ++ ".jpg".data))).isSome) ∧
    (((CropImageSource.save ⟨⟨"cat".data, 100⟩, 2, fun n => [n, n + 1], "cat_2".data⟩
        (fun _ => some 5) "out".data ".jpg".data (some "cache".data)).evs.countP
          (fun e => e.isCropCall) = 0) ∧
     ((CropImageSource.save ⟨⟨"cat".data, 100⟩, 2, fun n => [n, n + 1], "cat_2".data⟩
        (fun _ => some 5) "out".data ".jpg".data (some "cache".data)).evs.countP
          (fun e => e.isReadOrig) = 0)) :=
  ⟨rfl, crop_save_warm_cache_skips
    ⟨⟨"cat".data, 100⟩, 2, fun n => [n, n + 1], "cat_2".data⟩
    (fun _ => some 5) "out".data ".jpg".data "cache".data rfl⟩

/-- C4: calling `CropImageSource.save` without a cache directory always
fails (the original code dereferences the missing cache directory, raising
`TypeError`, after possibly raising `IndexError` at `crops[self.idx]`), and
in no case does it write any file: the filesystem is unchanged and no write
effect is emitted, so no output file appears in `target_dir`. -/
theorem crop_save_no_cache_fails
    (s : CropImageSource α) (fs : FS α) (sdir ext : Str) :
    ((s.save fs sdir ext none).err.isSome) ∧
    ((s.save fs sdir ext none).fs = fs) ∧
    (∀ p v, Ev.write p v ∉ (s.save fs sdir ext none).evs) := by
  by_cases h : s.idx < (s.cropper_fn s.read).length <;>
    simp [CropImageSource.save, h]

/-- C5: `CropImageSource.read` returns exactly the output of
`original_image_source.read()` — the full, uncropped image — and neither
`cropper_fn` nor `idx` influences its result. -/
theorem crop_read_full_image (s : CropImageSource α) (i : Nat) (c : α → List α) :
    s.read = s.original_image_source.read ∧
    CropImageSource.read { s with idx := i, cropper_fn := c } = s.read :=
  ⟨rfl, rfl⟩

/-- C9: with a cache directory given, the behaviour of
`CropImageSource.save` — result, filesystem effects and effect trace — is
independent of `idx`: two instances differing only in `idx` produce
identical `save` outcomes. -/
theorem crop_save_independent_of_idx (o : ImageSource α) (i j : Nat)
    (c : α → List α) (nm : Str) (fs : FS α) (sdir ext cdir : Str) :
    CropImageSource.save ⟨o, i, c, nm⟩ fs sdir ext (some cdir) =
      CropImageSource.save ⟨o, j, c, nm⟩ fs sdir ext (some cdir) := rfl

/-- Sequential left-to-right application of a chain of functions, as the
spec phrases the preprocessing pipeline: the output of each function is
piped into the next. -/
def applyChain : List (α → α) → α → α
  | [], img => img
  | fn :: fns, img => applyChain fns (fn img)

theorem foldl_eq_applyChain : ∀ (fns : List (α → α)) (img : α),
    fns.foldl (fun img fn => fn img) img = applyChain fns img := by
  intro fns
  induction fns with
  | nil => intro img; rfl
  | cons fn fns ih => intro img; simp [applyChain, List.foldl, ih]

/-- C6: `PathImageSource.read` equals the left-to-right sequential
application of each preprocessing function to the pixel buffer decoded from
the bytes at `path`; with no preprocessing functions it returns the raw
decode unchanged. -/
theorem path_read_pipeline (imdecode : β → α) (s : PathImageSource α) (fs : FS β)
    (bytes : β) (hb : fs s.path = some bytes) :
    s.read imdecode fs = .ok (applyChain s.preprocessing_fns (imdecode bytes)) ∧
    (s.preprocessing_fns = [] → s.read imdecode fs = .ok (imdecode bytes)) := by
  constructor
  · simp [PathImageSource.read, hb, foldl_eq_applyChain]
  · intro h
    simp [PathImageSource.read, hb, h]

/-- Witness: `path_read_pipeline` at a concrete one-function pipeline. -/
theorem path_read_pipeline_witness :
    ((fun _ => some 3 : FS Nat) "p".data = some 3) ∧
    (PathImageSource.read (fun b => b + 1)
        ⟨"p".data, [fun x => x * 2], "p".data⟩ (fun _ => some 3) =
      .ok (applyChain [fun x => x * 2] ((fun b : Nat => b + 1) 3)) ∧
     (([fun x => x * 2] : List (Nat → Nat)) = [] →
       PathImageSource.read (fun b => b + 1)
         ⟨"p".data, [fun x => x * 2], "p".data⟩ (fun _ => some 3) =
       .ok ((fun b : Nat => b + 1) 3))) :=
  ⟨rfl, path_read_pipeline (fun b => b + 1)
    ⟨"p".data, [fun x => x * 2], "p".data⟩ (fun _ => some 3) 3 rfl⟩

/-- C7: `paths2image_sources` preserves input length and order; every
produced source keeps its input path and its `name` is the path's filename
without directory and extension; a (truthy) override name passed to the
constructor is used unchanged instead. -/
theorem paths2image_sources_spec (paths : List Str) (fns : Option (List (α → α))) :
    ((paths2image_sources paths fns).length = paths.length) ∧
    (∀ j (hj : j < paths.length) (hj2 : j < (paths2image_sources paths fns).length),
      ((paths2image_sources paths fns).get ⟨j, hj2⟩).path = paths.get ⟨j, hj⟩ ∧
      ((paths2image_sources paths fns).get ⟨j, hj2⟩).name =
        (splitExt (basename (paths.get ⟨j, hj⟩))).1) ∧
    (∀ (p : Str) (f : Option (List (α → α))) (nm : Str), nm ≠ [] →
      (PathImageSource.init p f (some nm)).name = nm) := by
  refine ⟨by simp [paths2image_sources], ?_, ?_⟩
  · intro j hj hj2
    simp [paths2image_sources, PathImageSource.init]
  · intro p f nm hnm
    simp [PathImageSource.init, hnm]

/-- C8: `PathImageSource.save` either fails — leaving the filesystem
unchanged and performing no effect, the error surfacing to the caller — or
succeeds having written exactly one file: the encoded image at
`<save_dir>/<name><image_ext>`; an unsuccessful encode is an error, not a
silent no-op. -/
theorem path_save_one_write_or_error (imdecode : β → α) (imencode : Str → α → Option β)
    (s : PathImageSource α) (fs : FS β) (sdir ext : Str) (cd : Option Str) :
    (((s.save imdecode imencode fs sdir ext cd).err.isSome) ∧
      (s.save imdecode imencode fs sdir ext cd).fs = fs ∧
      (s.save imdecode imencode fs sdir ext cd).evs = []) ∨
    (∃ img buf,
      s.read imdecode fs = .ok img ∧
      imencode ((splitExt (basename (joinPath sdir (s.name ++ ext)))).2) img = some buf ∧
      (s.save imdecode imencode fs sdir ext cd).err = none ∧
      (s.save imdecode imencode fs sdir ext cd).fs =
        fs.write (joinPath sdir (s.name ++ ext)) buf ∧
      (s.save imdecode imencode fs sdir ext cd).evs =
        [.write (joinPath sdir (s.name ++ ext)) buf]) := by
  cases hr : s.read imdecode fs with
  | error e =>
    left
    simp [PathImageSource.save, hr]
  | ok img =>
    cases he : imencode ((splitExt (basename (joinPath sdir (s.name ++ ext)))).2) img with
    | none =>
      left
      simp [PathImageSource.save, PathImageSource._write, hr, he]
    | some buf =>
      right
      exact ⟨img, buf, rfl, he, by simp [PathImageSource.save, PathImageSource._write, hr, he]⟩

/-- C10: with a cold cache, `save` succeeds exactly when `name` has the
form `<base>_<k>` with `base` the name minus its last underscore-delimited
segment and `k` the canonical decimal numeral of a position strictly below
the number of crops; otherwise the populate step never creates the cache
key file, the final move fails with a file-not-found error, and the
freshly written sibling crop files remain behind in `cache_dir`. -/
theorem crop_save_cold_name_form (s : CropImageSource α) (fs : FS α)
    (sdir ext cdir : Str)
    (hcold : fs (joinPath cdir (s.name ++ ext)) = none) :
    ((∃ j, j < (s.cropper_fn s.read).length ∧
        s.name = dropLastSegment s.name ++ '_' :: natStr j) →
      (s.save fs sdir ext (some cdir)).err = none) ∧
    ((¬ ∃ j, j < (s.cropper_fn s.read).length ∧
        s.name = dropLastSegment s.name ++ '_' :: natStr j) →
      (s.save fs sdir ext (some cdir)).err =
        some (.fileNotFound (joinPath cdir (s.name ++ ext))) ∧
      ∀ j, j < (s.cropper_fn s.read).length →
        ((s.save fs sdir ext (some cdir)).fs
          (cropPath cdir (dropLastSegment s.name) ext j)).isSome) := by
  have hcases := crop_save_cold_cases s fs sdir ext cdir hcold
  constructor
  · rintro ⟨j, hj, hname⟩
    have hcachedEq : joinPath cdir (s.name ++ ext) =
        cropPath cdir (dropLastSegment s.name) ext j := by
      conv_lhs => rw [hname]
      rfl
    rcases hcases with ⟨v, hv, hEq⟩ | ⟨hv, hEq⟩
    · rw [hEq]
    · exfalso
      have hpres := writeCropsAux_fst_present cdir (dropLastSegment s.name) ext
        (s.cropper_fn s.read) fs 0 j hj
      rw [Nat.zero_add, ← hcachedEq, hv] at hpres
      simp at hpres
  · intro hno
    have hframe : (writeCropsAux cdir (dropLastSegment s.name) ext fs 0
        (s.cropper_fn s.read)).1 (joinPath cdir (s.name ++ ext)) =
          fs (joinPath cdir (s.name ++ ext)) := by
      apply writeCropsAux_fst_frame
      intro j hjlen heq
      rw [Nat.zero_add] at heq
      apply hno
      refine ⟨j, hjlen, ?_⟩
      have h1 := joinPath_right_inj.mp heq
      exact List.append_cancel_right h1
    rcases hcases with ⟨v, hv, hEq⟩ | ⟨hv, hEq⟩
    · rw [hframe, hcold] at hv
      exact absurd hv (by simp)
    · rw [hEq]
      refine ⟨rfl, ?_⟩
      intro j hj
      have hpres := writeCropsAux_fst_present cdir (dropLastSegment s.name) ext
        (s.cropper_fn s.read) fs 0 j hj
      rw [Nat.zero_add] at hpres
      exact hpres

/-- Witness: `crop_save_cold_name_form` at a concrete well-formed name. -/
theorem crop_save_cold_name_form_witness :
    ((fun _ => none : FS Nat) (joinPath "cache".data ("cat_2".data ++ ".jpg".data)) = none) ∧
    (((∃ j, j < ([100, 101, 102, 103] : List Nat).length ∧
        "cat_2".data = dropLastSegment "cat_2".data ++ '_' :: natStr j) →
      (CropImageSource.save ⟨⟨"cat".data, 100⟩, 2, fun n => [n, n + 1, n + 2, n + 3],
          "cat_2".data⟩ (fun _ => none) "out".data ".jpg".data
        (some "cache".data)).err = none) ∧
     ((¬ ∃ j, j < ([100, 101, 102, 103] : List Nat).length ∧
        "cat_2".data = dropLastSegment "cat_2".data ++ '_' :: natStr j) →
      (CropImageSource.save ⟨⟨"cat".data, 100⟩, 2, fun n => [n, n + 1, n + 2, n + 3],
          "cat_2".data⟩ (fun _ => none) "out".data ".jpg".data
        (some "cache".data)).err =
        some (.fileNotFound (joinPath "cache".data ("cat_2".data ++ ".jpg".data))) ∧
      ∀ j, j < ([100, 101, 102, 103] : List Nat).length →
        ((CropImageSource.save ⟨⟨"cat".data, 100⟩, 2, fun n => [n, n + 1, n + 2, n + 3],
            "cat_2".data⟩ (fun _ => none) "out".data ".jpg".data
          (some "cache".data)).fs
          (cropPath "cache".data (dropLastSegment "cat_2".data) ".jpg".data j)).isSome)) :=
  ⟨rfl, crop_save_cold_name_form
    ⟨⟨"cat".data, 100⟩, 2, fun n => [n, n + 1, n + 2, n + 3], "cat_2".data⟩
    (fun _ => none) "out".data ".jpg".data "cache".data rfl⟩

/-! ### The cooperative group-save protocol (C3) -/

/-- The name of the `j`-th member of a sibling group with base name
`base`: `<base>_<j>`. -/
def groupName (base : Str) (j : Nat) : Str := base ++ '_' :: natStr j

/-- The `j`-th member of a sibling group of `CropImageSource`s over the
same original image source and cropper. -/
def groupMember (o : ImageSource α) (c : α → List α) (base : Str) (j : Nat) :
    CropImageSource α :=
  ⟨o, j, c, groupName base j⟩

/-- Runs `save` on each source in turn with the same directories, as the
orchestrator invokes a group of sibling sources sequentially; returns
`none` as soon as a save raises. -/
def runSaves (sdir ext cdir : Str) : List (CropImageSource α) → FS α → Option (FS α)
  | [], fs => some fs
  | s :: ss, fs =>
    let out := s.save fs sdir ext (some cdir)
    match out.err with
    | some _ => none
    | none => runSaves sdir ext cdir ss out.fs

theorem cropPath_eq_groupFile (cdir base ext : Str) (j : Nat) :
    cropPath cdir base ext j = joinPath cdir (groupName base j ++ ext) := rfl

theorem dropLastSegment_groupName (base : Str) (j : Nat) :
    dropLastSegment (groupName base j) = base :=
  dropLastSegment_concat base (natStr j) (underscore_not_mem_natStr j)

theorem groupName_inj {base : Str} {i j : Nat}
    (h : groupName base i = groupName base j) : i = j := by
  have h1 : base ++ '_' :: natStr i = base ++ '_' :: natStr j := h
  have h2 := List.append_cancel_left h1
  have h3 : natStr i = natStr j := by injection h2
  exact natStr_injective h3

theorem groupFile_no_slash {base ext : Str} (hbase : '/' ∉ base) (hext : '/' ∉ ext)
    (j : Nat) : '/' ∉ (groupName base j ++ ext) := by
  intro h
  rcases List.mem_append.mp h with h1 | h1
  · have h1' : '/' ∈ base ++ '_' :: natStr j := h1
    rcases List.mem_append.mp h1' with h2 | h2
    · exact hbase h2
    · rcases List.mem_cons.mp h2 with h3 | h3
      · exact absurd h3 (by decide)
      · exact slash_not_mem_natStr j h3
  · exact hext h1

theorem cache_ne_target {cdir sdir base ext : Str} (hdir : cdir ≠ sdir)
    (hbase : '/' ∉ base) (hext : '/' ∉ ext) (i j : Nat) :
    cropPath cdir base ext i ≠ joinPath sdir (groupName base j ++ ext) := by
  rw [cropPath_eq_groupFile]
  intro h
  exact hdir ((joinPath_eq_iff (groupFile_no_slash hbase hext i)
    (groupFile_no_slash hbase hext j)).mp h).1

theorem target_path_inj {sdir base ext : Str} {i j : Nat}
    (h : joinPath sdir (groupName base i ++ ext) = joinPath sdir (groupName base j ++ ext)) :
    i = j :=
  groupName_inj (List.append_cancel_right (joinPath_right_inj.mp h))

theorem crop_save_warm_err (s : CropImageSource α) (fs : FS α) (sdir ext cdir : Str)
    (v : α) (hwarm : fs (joinPath cdir (s.name ++ ext)) = some v) :
    (s.save fs sdir ext (some cdir)).err = none := by
  rw [crop_save_warm_eq s fs sdir ext cdir v hwarm]

theorem crop_save_warm_fs (s : CropImageSource α) (fs : FS α) (sdir ext cdir : Str)
    (v : α) (hwarm : fs (joinPath cdir (s.name ++ ext)) = some v) (q : Str) :
    (s.save fs sdir ext (some cdir)).fs q =
      if q = joinPath sdir (s.name ++ ext) then some v
      else if q = joinPath cdir (s.name ++ ext) then none else fs q := by
  rw [crop_save_warm_eq s fs sdir ext cdir v hwarm]

theorem runSaves_skip (o : ImageSource α) (c : α → List α) (base sdir ext cdir : Str)
    (hdir : cdir ≠ sdir) (hbase : '/' ∉ base) (hext : '/' ∉ ext) (g : Nat → Option α) :
    ∀ (js : List Nat) (fs : FS α),
      js.Pairwise (fun a b => a ≠ b) →
      (∀ j ∈ js, (g j).isSome) →
      (∀ j ∈ js, fs (cropPath cdir base ext j) = g j) →
      ∃ fsf, runSaves sdir ext cdir (js.map (groupMember o c base)) fs = some fsf ∧
        (∀ j ∈ js,
          fsf (joinPath sdir (groupName base j ++ ext)) = g j ∧
          fsf (cropPath cdir base ext j) = none) ∧
        (∀ p, (∀ j ∈ js, p ≠ cropPath cdir base ext j ∧
            p ≠ joinPath sdir (groupName base j ++ ext)) → fsf p = fs p) := by
  intro js
  induction js with
  | nil =>
    intro fs _ _ _
    exact ⟨fs, rfl, by simp, fun p _ => rfl⟩
  | cons j js ih =>
    intro fs hpw hg hpre
    obtain ⟨w, hw⟩ := Option.isSome_iff_exists.mp (hg j (List.mem_cons_self _ _))
    have hmname : (groupMember o c base j).name = groupName base j := rfl
    have hvj : fs (joinPath cdir ((groupMember o c base j).name ++ ext)) = some w := by
      have h1 := hpre j (List.mem_cons_self _ _)
      rw [hw] at h1
      exact h1
    rcases List.pairwise_cons.mp hpw with ⟨hj_ne, hpw'⟩
    have hfs1 := crop_save_warm_fs (groupMember o c base j) fs sdir ext cdir w hvj
    have herr1 := crop_save_warm_err (groupMember o c base j) fs sdir ext cdir w hvj
    have hpre' : ∀ j' ∈ js,
        ((groupMember o c base j).save fs sdir ext (some cdir)).fs
          (cropPath cdir base ext j') = g j' := by
      intro j' hj'
      rw [hfs1 (cropPath cdir base ext j'), hmname]
      rw [if_neg (cache_ne_target hdir hbase hext j' j)]
      rw [← cropPath_eq_groupFile]
      rw [if_neg (fun hEq => (hj_ne j' hj') (cropPath_inj hEq).symm)]
      exact hpre j' (List.mem_cons_of_mem _ hj')
    obtain ⟨fsf, hrun, hfacts, hframe⟩ :=
      ih ((groupMember o c base j).save fs sdir ext (some cdir)).fs hpw'
        (fun j' hj' => hg j' (List.mem_cons_of_mem _ hj')) hpre'
    refine ⟨fsf, ?_, ?_, ?_⟩
    · simp only [List.map_cons, runSaves, herr1]
      exact hrun
    · intro j' hj'
      rcases List.mem_cons.mp hj' with rfl | hj2
      · have hside : ∀ j'' ∈ js,
            joinPath sdir (groupName base j' ++ ext) ≠ cropPath cdir base ext j'' ∧
            joinPath sdir (groupName base j' ++ ext) ≠
              joinPath sdir (groupName base j'' ++ ext) := by
          intro j'' hj''
          constructor
          · exact fun hEq => cache_ne_target hdir hbase hext j'' j' hEq.symm
          · exact fun hEq => (hj_ne j'' hj'') (target_path_inj hEq)
        have hside2 : ∀ j'' ∈ js,
            cropPath cdir base ext j' ≠ cropPath cdir base ext j'' ∧
            cropPath cdir base ext j' ≠ joinPath sdir (groupName base j'' ++ ext) := by
          intro j'' hj''
          constructor
          · exact fun hEq => (hj_ne j'' hj'') (cropPath_inj hEq)
          · exact cache_ne_target hdir hbase hext j' j''
        constructor
        · rw [hframe _ hside, hfs1, hmname, if_pos rfl, hw]
        · rw [hframe _ hside2, hfs1, hmname,
            if_neg (cache_ne_target hdir hbase hext j' j'),
            ← cropPath_eq_groupFile, if_pos rfl]
      · exact hfacts j' hj2
    · intro p hp
      have hpj := hp j (List.mem_cons_self _ _)
      rw [hframe p (fun j' hj' => hp j' (List.mem_cons_of_mem _ hj')), hfs1, hmname,
        if_neg hpj.2, ← cropPath_eq_groupFile, if_neg hpj.1]

theorem group_save_cold_first (o : ImageSource α) (c : α → List α)
    (base sdir ext cdir : Str) (fs : FS α)
    (hcold0 : fs (cropPath cdir base ext 0) = none)
    (hlen : 0 < (c o.read).length) :
    ((groupMember o c base 0).save fs sdir ext (some cdir)).err = none ∧
    ∀ q, ((groupMember o c base 0).save fs sdir ext (some cdir)).fs q =
      if q = joinPath sdir (groupName base 0 ++ ext) then (c o.read).get? 0
      else if q = cropPath cdir base ext 0 then none
      else (writeCropsAux cdir base ext fs 0 (c o.read)).1 q := by
  have hcold' : fs (joinPath cdir ((groupMember o c base 0).name ++ ext)) = none := hcold0
  have hcases := crop_save_cold_cases (groupMember o c base 0) fs sdir ext cdir hcold'
  rw [show dropLastSegment (groupMember o c base 0).name = base from
    dropLastSegment_groupName base 0] at hcases
  have hget := writeCropsAux_fst_get cdir base ext (c o.read) fs 0 0 hlen
  rcases hcases with ⟨v, hv, hEq⟩ | ⟨hv, hEq⟩
  · have hvget : v = (c o.read).get ⟨0, hlen⟩ := by
      have h1 : (writeCropsAux cdir base ext fs 0 (c o.read)).1
          (cropPath cdir base ext 0) = some v := hv
      rw [hget] at h1
      exact (Option.some_inj.mp h1).symm
    constructor
    · rw [hEq]
    · intro q
      rw [hEq]
      simp only []
      rw [hvget, List.get?_eq_get hlen]
      rfl
  · exfalso
    have h1 : (writeCropsAux cdir base ext fs 0 (c o.read)).1
        (cropPath cdir base ext 0) = none := hv
    rw [hget] at h1
    simp at h1

theorem getLast?_three_cons_concat (a b c' : Ev α) (l : List (Ev α)) (e : Ev α) :
    (a :: b :: c' :: (l ++ [e])).getLast? = some e := by
  have h : a :: b :: c' :: (l ++ [e]) = (a :: b :: c' :: l) ++ [e] := by simp
  rw [h, List.getLast?_concat]

/-- C3: a sibling group of `CropImageSource`s over the same original image,
cropper and base name, saved sequentially into the same target and cache
directories starting from a cold cache: every save succeeds, every member's
output file exists at `<target_dir>/<name><image_ext>` (holding that
member's crop), the cache directory no longer contains any of the moved
files, and every successful member save ends by moving (not copying) its
cache entry to its target path, consuming that cache entry. -/
theorem crop_save_group_protocol (o : ImageSource α) (c : α → List α)
    (base sdir ext cdir : Str) (hdir : cdir ≠ sdir)
    (hbase : '/' ∉ base) (hext : '/' ∉ ext) (fs0 : FS α)
    (hcold : ∀ j, j < (c o.read).length → fs0 (cropPath cdir base ext j) = none) :
    (∃ fsf, runSaves sdir ext cdir
        ((List.range (c o.read).length).map (groupMember o c base)) fs0 = some fsf ∧
      ∀ j, j < (c o.read).length →
        fsf (joinPath sdir (groupName base j ++ ext)) = (c o.read).get? j ∧
        fsf (cropPath cdir base ext j) = none) ∧
    (∀ (i : Nat) (fs : FS α),
      ((groupMember o c base i).save fs sdir ext (some cdir)).err = none →
      ((groupMember o c base i).save fs sdir ext (some cdir)).evs.getLast? =
        some (.move (cropPath cdir base ext i)
          (joinPath sdir (groupName base i ++ ext)))) := by
  constructor
  · rcases Nat.eq_zero_or_pos (c o.read).length with hN | hN
    · refine ⟨fs0, ?_, ?_⟩
      · rw [hN]
        rfl
      · intro j hj
        omega
    · obtain ⟨m, hm⟩ : ∃ m, (c o.read).length = m + 1 := ⟨(c o.read).length - 1, by omega⟩
      have hrange : List.range (c o.read).length = 0 :: List.range' 1 m := by
        rw [hm, List.range_eq_range' (m + 1)]
        exact List.range'_succ 0 m 1
      obtain ⟨herr0, hfs0⟩ := group_save_cold_first o c base sdir ext cdir fs0
        (hcold 0 hN) hN
      have hpre : ∀ j ∈ List.range' 1 m,
          ((groupMember o c base 0).save fs0 sdir ext (some cdir)).fs
            (cropPath cdir base ext j) = (c o.read).get? j := by
        intro j hjm
        rcases List.mem_range'_1.mp hjm with ⟨hj1, hj2⟩
        have hjN : j < (c o.read).length := by omega
        rw [hfs0 (cropPath cdir base ext j)]
        rw [if_neg (cache_ne_target hdir hbase hext j 0)]
        rw [if_neg (fun hEq => by have := cropPath_inj hEq; omega)]
        have hg := writeCropsAux_fst_get cdir base ext (c o.read) fs0 0 j hjN
        rw [Nat.zero_add] at hg
        rw [hg, List.get?_eq_get hjN]
      have hgsome : ∀ j ∈ List.range' 1 m, ((c o.read).get? j).isSome := by
        intro j hjm
        rcases List.mem_range'_1.mp hjm with ⟨hj1, hj2⟩
        have hjN : j < (c o.read).length := by omega
        rw [List.get?_eq_get hjN]
        rfl
      have hpw : (List.range' 1 m).Pairwise (fun a b => a ≠ b) :=
        (List.pairwise_lt_range' 1 m).imp (fun h => Nat.ne_of_lt h)
      obtain ⟨fsf, hrun, hfacts, hframe⟩ := runSaves_skip o c base sdir ext cdir
        hdir hbase hext (fun j => (c o.read).get? j) (List.range' 1 m)
        ((groupMember o c base 0).save fs0 sdir ext (some cdir)).fs hpw hgsome hpre
      refine ⟨fsf, ?_, ?_⟩
      · rw [hrange]
        simp only [List.map_cons, runSaves, herr0]
        exact hrun
      · intro j hj
        rcases Nat.eq_zero_or_pos j with rfl | hj0
        · have hside1 : ∀ j'' ∈ List.range' 1 m,
              joinPath sdir (groupName base 0 ++ ext) ≠ cropPath cdir base ext j'' ∧
              joinPath sdir (groupName base 0 ++ ext) ≠
                joinPath sdir (groupName base j'' ++ ext) := by
            intro j'' hm''
            rcases List.mem_range'_1.mp hm'' with ⟨h1, _⟩
            exact ⟨fun hEq => cache_ne_target hdir hbase hext j'' 0 hEq.symm,
              fun hEq => by have := target_path_inj hEq; omega⟩
          have hside2 : ∀ j'' ∈ List.range' 1 m,
              cropPath cdir base ext 0 ≠ cropPath cdir base ext j'' ∧
              cropPath cdir base ext 0 ≠ joinPath sdir (groupName base j'' ++ ext) := by
            intro j'' hm''
            rcases List.mem_range'_1.mp hm'' with ⟨h1, _⟩
            exact ⟨fun hEq => by have := cropPath_inj hEq; omega,
              cache_ne_target hdir hbase hext 0 j''⟩
          constructor
          · rw [hframe _ hside1, hfs0, if_pos rfl]
          · rw [hframe _ hside2, hfs0,
              if_neg (cache_ne_target hdir hbase hext 0 0), if_pos rfl]
        · exact hfacts j (List.mem_range'_1.mpr ⟨hj0, by omega⟩)
  · intro i fs hok
    cases hc : fs (joinPath cdir ((groupMember o c base i).name ++ ext)) with
    | some v =>
      rw [crop_save_warm_eq (groupMember o c base i) fs sdir ext cdir v hc]
      rfl
    | none =>
      rcases crop_save_cold_cases (groupMember o c base i) fs sdir ext cdir hc with
        ⟨v, hv, hEq⟩ | ⟨hv, hEq⟩
      · rw [hEq]
        exact getLast?_three_cons_concat _ _ _ _ _
      · rw [hEq] at hok
        simp at hok

/-- Witness: `crop_save_group_protocol` for a concrete two-crop group. -/
theorem crop_save_group_protocol_witness :
    ("cache".data ≠ "out".data) ∧ ('/' ∉ "cat".data) ∧ ('/' ∉ ".jpg".data) ∧
    (∀ j, j < ([100, 101] : List Nat).length →
      (fun _ => none : FS Nat) (cropPath "cache".data "cat".data ".jpg".data j) = none) ∧
    ((∃ fsf, runSaves "out".data ".jpg".data "cache".data
        ((List.range ([100, 101] : List Nat).length).map
          (groupMember (⟨"cat".data, 100⟩ : ImageSource Nat)
            (fun n => [n, n + 1]) "cat".data)) (fun _ => none) = some fsf ∧
      ∀ j, j < ([100, 101] : List Nat).length →
        fsf (joinPath "out".data (groupName "cat".data j ++ ".jpg".data)) =
          ([100, 101] : List Nat).get? j ∧
        fsf (cropPath "cache".data "cat".data ".jpg".data j) = none) ∧
    (∀ (i : Nat) (fs : FS Nat),
      ((groupMember (⟨"cat".data, 100⟩ : ImageSource Nat)
          (fun n => [n, n + 1]) "cat".data i).save fs
          "out".data ".jpg".data (some "cache".data)).err = none →
      ((groupMember (⟨"cat".data, 100⟩ : ImageSource Nat)
          (fun n => [n, n + 1]) "cat".data i).save fs
          "out".data ".jpg".data (some "cache".data)).evs.getLast? =
        some (.move (cropPath "cache".data "cat".data ".jpg".data i)
          (joinPath "out".data (groupName "cat".data i ++ ".jpg".data))))) :=
  ⟨by decide, by decide, by decide, fun j hj => rfl,
    crop_save_group_protocol (⟨"cat".data, 100⟩ : ImageSource Nat)
      (fun n => [n, n + 1]) "cat".data "out".data ".jpg".data "cache".data
      (by decide) (by decide) (by decide) (fun _ => none) (fun j hj => rfl)⟩

end DataSculptor
